import Mathlib

/-!
Verification development for the Genesis-Engine simulation core.

Numbers: TypeScript `number` values are modelled as `ℚ` (exact rational
arithmetic; every literal in the embedded code is a dyadic rational, and the
properties verified here are order/structure properties of the arithmetic the
source performs).  Values that the source only ever holds as integers
(counts, indices, 32-bit PRNG words) are modelled as `Nat`/`Int` with explicit
`% 2 ^ 32` where JavaScript's bitwise semantics wrap.
-/

namespace Genesis

/-- `2 ^ 32`: JavaScript bitwise operators work on the low 32 bits of a
number, and the Mulberry32 generator divides its 32-bit word by this
constant to produce a uniform value in `[0, 1)`. -/
def two32 : Nat := 4294967296

/-- Seeded PRNG state (src/utils/Random.ts, class `Random`).  The class holds
one numeric seed; `Math.imul`, `^`, `>>>` and `|` act on the low 32 bits. -/
structure Random where
  seed : Nat
deriving DecidableEq

namespace Random

/-- `Math.imul`: 32-bit multiplication (the result's low 32 bits). -/
def imul (a b : Nat) : Nat := (a * b) % two32

/-- The word `next()` computes before dividing by `2^32`, together with the
updated state.  Mirrors the Mulberry32 body line by line:
`let t = (this.seed += 0x6d2b79f5)` (the stored seed is not wrapped; every
bitwise operator below reads only its low 32 bits),
`t = Math.imul(t ^ (t >>> 15), t | 1)`,
`t ^= t + Math.imul(t ^ (t >>> 7), t | 61)`,
`return ((t ^ (t >>> 14)) >>> 0) / 4294967296`. -/
def nextWord (r : Random) : Nat × Random :=
  let seed := r.seed + 0x6d2b79f5
  let t0 := seed % two32
  let t1 := imul (t0 ^^^ (t0 >>> 15)) (t0 ||| 1)
  let t2 := t1 ^^^ ((t1 + imul (t1 ^^^ (t1 >>> 7)) (t1 ||| 61)) % two32)
  ((t2 ^^^ (t2 >>> 14)) % two32, ⟨seed⟩)

/-- `next(): number` — a uniform draw in `[0, 1)` as `word / 2^32`. -/
def next (r : Random) : ℚ × Random :=
  let (w, r') := nextWord r
  ((w : ℚ) / (two32 : ℚ), r')

/-- `range(min, max) = min + this.next() * (max - min)`. -/
def range (r : Random) (lo hi : ℚ) : ℚ × Random :=
  let (u, r') := next r
  (lo + u * (hi - lo), r')

/-- `int(min, max) = Math.floor(this.range(min, max))`. -/
def int (r : Random) (lo hi : ℚ) : Int × Random :=
  let (x, r') := range r lo hi
  (⌊x⌋, r')

/-- `bool(probability = 0.5) = this.next() < probability`. -/
def bool (r : Random) (probability : ℚ) : Bool × Random :=
  let (u, r') := next r
  (u < probability, r')

end Random

/-- One step of the destructuring swap
`[result[i], result[j]] = [result[j], result[i]]`: the right-hand pair is
read first, then written back.  Out-of-range indices cannot occur in the
source's loop; the embedding leaves the list unchanged in that case. -/
def listSwap {α : Type _} (l : List α) (i j : Nat) : List α :=
  match l.get? i, l.get? j with
  | some a, some b => (l.set i b).set j a
  | _, _ => l

/-- The Fisher–Yates loop of `shuffle` (src/utils/Random.ts): the argument is
the current loop index `i`; each iteration draws `j = int(0, i + 1)` and swaps
positions `i` and `j`, then decrements `i`; the loop stops once `i = 0`. -/
def Random.shuffleAux {α : Type _} : List α → Nat → Random → List α × Random
  | l, 0, r => (l, r)
  | l, i + 1, r =>
    let (j, r') := Random.int r 0 ((i + 1 : Nat) + 1 : ℚ)
    Random.shuffleAux (listSwap l (i + 1) j.toNat) i r'

/-- `shuffle(array)`: copies the input (`[...array]`) and runs Fisher–Yates
from index `length - 1` down to `1`.  The returned list is the new array; the
input list itself is a value and is untouched. -/
def Random.shuffle {α : Type _} (r : Random) (array : List α) : List α × Random :=
  Random.shuffleAux array (array.length - 1) r

theorem cons_set_perm {α : Type _} : ∀ (xs : List α) (k : Nat) (a b : α),
    xs.get? k = some b → (b :: xs.set k a).Perm (a :: xs)
  | x :: xs, 0, a, b, h => by
      have hx : x = b := by simpa using h
      subst hx
      simpa using List.Perm.swap a x xs
  | y :: xs, k + 1, a, b, h => by
      simp only [List.get?_cons_succ] at h
      refine List.Perm.trans ?_
        (List.Perm.trans (List.Perm.cons y (cons_set_perm xs k a b h)) (List.Perm.swap a y xs))
      simpa using List.Perm.swap y b (xs.set k a)

theorem set_set_swap_perm {α : Type _} : ∀ (l : List α) (i j : Nat) (a b : α),
    l.get? i = some a → l.get? j = some b → ((l.set i b).set j a).Perm l
  | [], i, _, _, _, hi, _ => by simp at hi
  | x :: xs, 0, 0, a, b, hi, hj => by
      have hx : x = a := by simpa using hi
      have hx' : x = b := by simpa using hj
      subst hx; subst hx'
      simp
  | x :: xs, 0, j + 1, a, b, hi, hj => by
      have hx : x = a := by simpa using hi
      simp only [List.get?_cons_succ] at hj
      subst hx
      simpa using cons_set_perm xs j x b hj
  | x :: xs, i + 1, 0, a, b, hi, hj => by
      have hx : x = b := by simpa using hj
      simp only [List.get?_cons_succ] at hi
      subst hx
      simpa using cons_set_perm xs i x a hi
  | x :: xs, i + 1, j + 1, a, b, hi, hj => by
      simp only [List.get?_cons_succ] at hi hj
      simpa using List.Perm.cons x (set_set_swap_perm xs i j a b hi hj)

theorem listSwap_perm {α : Type _} (l : List α) (i j : Nat) : (listSwap l i j).Perm l := by
  unfold listSwap
  cases hi : l.get? i with
  | none => cases hj : l.get? j <;> exact List.Perm.refl l
  | some a =>
    cases hj : l.get? j with
    | none => exact List.Perm.refl l
    | some b => exact set_set_swap_perm l i j a b hi hj

theorem shuffleAux_perm {α : Type _} (i : Nat) (l : List α) (r : Random) :
    (Random.shuffleAux l i r).1.Perm l := by
  induction i generalizing l r with
  | zero => exact List.Perm.refl l
  | succ i ih =>
    unfold Random.shuffleAux
    exact ((ih _ _).trans (listSwap_perm l (i + 1) _))

/-- C10: `Random.shuffle` returns a permutation of its input (same elements,
same multiplicities), and — the embedding being pure — the input list itself
is left unmodified, the property `Protocell.divide` relies on for its interior
split to be an exact partition. -/
theorem shuffle_perm {α : Type _} (r : Random) (array : List α) :
    ((Random.shuffle r array).1).Perm array :=
  shuffleAux_perm (array.length - 1) array r

/-- 2D vector (src/utils/Vector2.ts); only the operations the embedded code
uses are reproduced. -/
structure Vector2 where
  x : ℚ
  y : ℚ
deriving DecidableEq

def Vector2.zero : Vector2 := ⟨0, 0⟩

def Vector2.add (v w : Vector2) : Vector2 := ⟨v.x + w.x, v.y + w.y⟩

/-- `lerp(v, t) = (x + (v.x - x) * t, y + (v.y - y) * t)`. -/
def Vector2.lerp (v w : Vector2) (t : ℚ) : Vector2 :=
  ⟨v.x + (w.x - v.x) * t, v.y + (w.y - v.y) * t⟩

/-- Modelled from the spec: `src/chemistry/Element.ts` is not among the
source files (only its importers are).  The spec fixes a six-value element
enumeration whose string value is the element's symbol (molecule formulas
such as `H2`/`CO2` are built from it and used as membrane permeability
keys). -/
inductive Element
  | H
  | C
  | N
  | O
  | P
  | S
deriving DecidableEq

/-- Modelled from the spec: the per-element property table of the missing
`src/chemistry/Element.ts` (bond-site count, electronegativity, mass,
abundance), with the values given in the repository's design document. -/
structure ElementProps where
  symbol : String
  bondSites : Nat
  electronegativity : ℚ
  mass : ℚ
  abundance : ℚ
deriving DecidableEq

/-- Modelled from the spec: `ELEMENT_PROPERTIES`, the immutable global
element lookup table. -/
def ELEMENT_PROPERTIES : Element → ElementProps
  | .H => ⟨"H", 1, 0.21, 1, 0.40⟩
  | .C => ⟨"C", 4, 0.55, 12, 0.15⟩
  | .N => ⟨"N", 3, 0.65, 14, 0.10⟩
  | .O => ⟨"O", 2, 0.75, 16, 0.20⟩
  | .P => ⟨"P", 5, 0.45, 31, 0.05⟩
  | .S => ⟨"S", 2, 0.50, 32, 0.10⟩

/-- `Atom` (src/chemistry/Molecule.ts): `{element, bondCount}`. -/
structure Atom where
  element : Element
  bondCount : Nat
deriving DecidableEq

inductive BondType
  | covalent
  | ionic
  | hydrogen
deriving DecidableEq

inductive BondOrder
  | single
  | double
deriving DecidableEq

/-- `Bond` (src/chemistry/Molecule.ts): atom indices into the owning
molecule's atom list; `order` is the optional field synthesis products
carry. -/
structure Bond where
  atomA : Nat
  atomB : Nat
  strength : ℚ
  type : BondType
  order : Option BondOrder
deriving DecidableEq

structure CatalyticSite where
  targetReactionType : String
  efficiency : ℚ
deriving DecidableEq

/-- `Molecule` (src/chemistry/Molecule.ts).  Only the state the embedded
operations read is kept: the fresh `id` (drawn from an external id source;
equality is by id in the source, and no verified operation reads it), the
mutable caches (`mass`, `polarity`, `_cachedChainLength`), `age`, `velocity`,
`role`, `formation` and `halfLife` play no part in the verified operations.
`redoxPotential` is a numeric molecule attribute read by
`ReactionSystem.checkReaction`. -/
structure Molecule where
  atoms : List Atom
  bonds : List Bond
  position : Vector2
  energy : ℚ
  redoxPotential : ℚ
  catalyticSites : List CatalyticSite
deriving DecidableEq

/-- Atom count of one element in a molecule (the `counts` map of
`getFormula`). -/
def elementCount (atoms : List Atom) (e : Element) : Nat :=
  (atoms.filter (fun a => decide (a.element = e))).length

/-- The fixed ordering `[C, H, N, O, P, S]` getFormula prints in. -/
def formulaOrder : List Element := [.C, .H, .N, .O, .P, .S]

/-- `getFormula()`: for each element in the fixed order append its symbol,
then its count when greater than one; elements with count zero are skipped
(`if (count)`). -/
def Molecule.getFormula (m : Molecule) : String :=
  formulaOrder.foldl
    (fun formula el =>
      let count := elementCount m.atoms el
      if count = 0 then formula
      else formula ++ (ELEMENT_PROPERTIES el).symbol ++
        (if 1 < count then toString count else ""))
    ""

/-- `Membrane` (src/proto/Protocell.ts).  The permeability record is an
association list keyed by molecule formula. -/
structure Membrane where
  lipidCount : Nat
  permeability : List (String × ℚ)
  stability : ℚ
  osmoticPressure : ℚ
  maxCapacity : Nat
  surfaceMolecules : List Molecule
deriving DecidableEq

/-- `MetabolicPathway` (src/proto/Metabolism.ts). -/
structure MetabolicPathway where
  id : String
  inputs : List String
  outputs : List String
  netEnergy : ℚ
  efficiency : ℚ
  cycleLength : ℚ
  currentCycle : ℚ
deriving DecidableEq

/-- `ProtoMetabolism` (src/proto/Metabolism.ts): the pathway list plus the
energy tally. -/
structure ProtoMetabolism where
  pathways : List MetabolicPathway
  totalEnergyProduced : ℚ
deriving DecidableEq

/-- `InformationPolymer` (src/proto/InformationPolymer.ts): 4-ary symbol
sequence plus copy fidelity. -/
structure InformationPolymer where
  sequence : List Nat
  fidelity : ℚ
  age : Nat
deriving DecidableEq

/-- `Replicator` (src/proto/Replicator.ts). -/
structure Replicator where
  polymer : InformationPolymer
  replicationSpeed : ℚ
  replicationProgress : ℚ
  copyCount : Nat
deriving DecidableEq

/-- `Protocell` (src/proto/Protocell.ts). -/
structure Protocell where
  id : String
  position : Vector2
  velocity : Vector2
  membrane : Membrane
  interior : List Molecule
  replicators : List Replicator
  metabolism : ProtoMetabolism
  energy : ℚ
  age : Nat
  integrity : ℚ
  parentId : Option String
deriving DecidableEq

/-- The `Protocell` constructor (`new Protocell(position, lipidCount)`).
`generateId()` draws from an external id source, so the fresh id is an
argument of the embedding. -/
def mkProtocell (position : Vector2) (lipidCount : Nat) (id : String) : Protocell :=
  { id := id
    position := position
    velocity := Vector2.zero
    membrane :=
      { lipidCount := lipidCount
        permeability := [("H2", 0.8), ("CO2", 0.7)]
        stability := 0.5 + (lipidCount : ℚ) * 0.02
        osmoticPressure := 0
        maxCapacity := lipidCount * 3
        surfaceMolecules := [] }
    interior := []
    replicators := []
    metabolism := { pathways := [], totalEnergyProduced := 0 }
    energy := (lipidCount : ℚ) * 0.1
    age := 0
    integrity := 1
    parentId := none }

/-- `Protocell.divide(rng)`: the parent is mutated in place and the daughter
returned; the embedding returns `(daughter, parent after division, rng)`.
The fresh daughter id (`generateId()` inside the constructor) is an
argument. -/
def Protocell.divide (cell : Protocell) (rng : Random) (daughterId : String) :
    Protocell × Protocell × Random :=
  let (dx, r1) := Random.range rng (-2) 2
  let (dy, r2) := Random.range r1 (-2) 2
  let daughter0 := mkProtocell (cell.position.add ⟨dx, dy⟩)
    (cell.membrane.lipidCount / 2) daughterId
  let daughter1 := { daughter0 with parentId := some cell.id }
  let (shuffled, r3) := Random.shuffle r2 cell.interior
  let split := shuffled.length / 2
  let dInterior := shuffled.take split
  let pInterior := shuffled.drop split
  let (dReps, pReps, r4) :=
    if 1 < cell.replicators.length then
      let repSplit := cell.replicators.length / 2
      (cell.replicators.take repSplit, cell.replicators.drop repSplit, r3)
    else if cell.replicators.length = 1 then
      let (b, r') := Random.bool r3 0.5
      if b then (cell.replicators, ([] : List Replicator), r')
      else (([] : List Replicator), cell.replicators, r')
    else (([] : List Replicator), cell.replicators, r3)
  let dPathways := cell.metabolism.pathways.map (fun p => { p with currentCycle := 0 })
  let daughter :=
    { daughter1 with
        interior := dInterior
        replicators := dReps
        energy := cell.energy * 0.4
        metabolism := { daughter1.metabolism with pathways := dPathways } }
  let parent :=
    { cell with
        interior := pInterior
        replicators := pReps
        energy := cell.energy * 0.6
        membrane := { cell.membrane with lipidCount := (cell.membrane.lipidCount + 1) / 2 } }
  (daughter, parent, r4)

/-- The membrane permeability `absorbMolecule` tests against: the
formula-specific entry (default `0.1`) scaled by
`0.5 + 0.5 * max(0, 1 - atoms * 0.15)` — smaller molecules pass more
easily. -/
def effectivePermeability (cell : Protocell) (mol : Molecule) : ℚ :=
  let formulaPerm := (List.lookup mol.getFormula cell.membrane.permeability).getD 0.1
  let sizeFactor := max 0 (1 - (mol.atoms.length : ℚ) * 0.15)
  formulaPerm * (0.5 + 0.5 * sizeFactor)

/-- `absorbMolecule(mol)` (src/proto/Protocell.ts).  `u` is the value of the
`Math.random()` call in the source — the one stochastic decision that does
not come from the seeded `Random` instance (the method takes no rng). -/
def Protocell.absorbMolecule (cell : Protocell) (mol : Molecule) (u : ℚ) : Bool × Protocell :=
  if cell.membrane.maxCapacity ≤ cell.interior.length then (false, cell)
  else if u < effectivePermeability cell mol ∧ mol.atoms.length ≤ 8 then
    (true,
      { cell with
          interior := cell.interior ++ [mol]
          energy := cell.energy + mol.energy * 0.1 })
  else (false, cell)

/-- C2: `Protocell.divide` conserves energy exactly — daughter (40%) plus
parent (60%) equals the pre-division energy — and the parent's interior
molecule list is partitioned exactly between parent and daughter: the two
interiors together are a permutation of the pre-division interior (no
molecule duplicated, none lost). -/
theorem divide_conserves_energy_and_partitions_interior
    (cell : Protocell) (rng : Random) (daughterId : String) :
    (cell.divide rng daughterId).1.energy + (cell.divide rng daughterId).2.1.energy
        = cell.energy ∧
    ((cell.divide rng daughterId).1.interior ++
        (cell.divide rng daughterId).2.1.interior).Perm cell.interior := by
  constructor
  · show cell.energy * 0.4 + cell.energy * 0.6 = cell.energy
    ring
  · show ((Random.shuffle _ cell.interior).1.take _ ++
        (Random.shuffle _ cell.interior).1.drop _).Perm cell.interior
    rw [List.take_append_drop]
    exact shuffleAux_perm _ _ _

/-- C5: `absorbMolecule` refuses the molecule once the interior count has
reached the membrane capacity (returns `false`, protocell unchanged); below
capacity it succeeds exactly when the ambient draw falls below the
formula-specific permeability scaled down for larger atom counts (and the
molecule has at most 8 atoms). -/
theorem absorbMolecule_capacity_gate (cell : Protocell) (mol : Molecule) (u : ℚ) :
    (cell.membrane.maxCapacity ≤ cell.interior.length →
        cell.absorbMolecule mol u = (false, cell)) ∧
    (cell.interior.length < cell.membrane.maxCapacity →
        ((cell.absorbMolecule mol u).1 = true ↔
          u < effectivePermeability cell mol ∧ mol.atoms.length ≤ 8)) := by
  unfold Protocell.absorbMolecule
  constructor
  · intro h
    rw [if_pos h]
  · intro h
    rw [if_neg (by omega)]
    by_cases hc : u < effectivePermeability cell mol ∧ mol.atoms.length ≤ 8
    · simp [hc]
    · simp [hc]

/-- A one-atom hydrogen molecule (formula `"H"`), used as a concrete
input. -/
def molH : Molecule :=
  { atoms := [⟨.H, 0⟩], bonds := [], position := ⟨0, 0⟩,
    energy := 0, redoxPotential := 0, catalyticSites := [] }

/-- A protocell built with zero lipids: its membrane capacity is `0`, so it
is already at capacity. -/
def cellAtCapacity : Protocell := mkProtocell ⟨0, 0⟩ 0 "cell-full"

/-- A protocell built with the default 20 lipids (capacity 60, interior
empty). -/
def cellBelowCapacity : Protocell := mkProtocell ⟨0, 0⟩ 20 "cell"

theorem absorbMolecule_capacity_gate_witness :
    cellAtCapacity.absorbMolecule molH 0 = (false, cellAtCapacity) ∧
    ((cellBelowCapacity.absorbMolecule molH 0).1 = true ↔
      (0 : ℚ) < effectivePermeability cellBelowCapacity molH ∧ molH.atoms.length ≤ 8) :=
  ⟨(absorbMolecule_capacity_gate cellAtCapacity molH 0).1 (by decide),
   (absorbMolecule_capacity_gate cellBelowCapacity molH 0).2 (by decide)⟩

/-- C1 (refuted): `absorbMolecule`'s accept/reject decision is a function of
the ambient `Math.random()` draw `u` alone — the method consumes no state of
the seeded `Random` generator (it has no rng parameter at all), and two runs
that agree on the seed but see different ambient draws diverge at the very
first absorption check: with `u = 0` the hydrogen molecule is absorbed, with
`u = 1/2` it is refused. -/
theorem absorbMolecule_ambient_draw_divergence :
    (cellBelowCapacity.absorbMolecule molH 0).1 = true ∧
    (cellBelowCapacity.absorbMolecule molH (1 / 2)).1 = false := by
  constructor <;>
    simp [Protocell.absorbMolecule, effectivePermeability, mkProtocell, molH,
      cellBelowCapacity, List.lookup, Molecule.getFormula, formulaOrder, elementCount,
      ELEMENT_PROPERTIES] <;>
    norm_num

/-!  The reaction system (src/chemistry/Reaction.ts).  -/

/-- Adjacency lists built by `getChainLength`: for each bond, `atomB` is
appended to `adj[atomA]` and `atomA` to `adj[atomB]`, in bond-list order. -/
def buildAdjacency (n : Nat) (bonds : List Bond) : List (List Nat) :=
  bonds.foldl
    (fun adj bond =>
      let adj1 := adj.set bond.atomA ((adj.getD bond.atomA []) ++ [bond.atomB])
      adj1.set bond.atomB ((adj1.getD bond.atomB []) ++ [bond.atomA]))
    (List.replicate n [])

/-- The `while (stack.length > 0)` traversal of `getChainLength`, for one
start atom. The stack is kept top-first (`pop()` takes the head; pushed
neighbours end up with the last-pushed on top, as in the array source).
`visited` is extended at push time, so each node is pushed at most once and
the loop runs at most `1 + 2 * |bonds|` iterations; the fuel argument is an
upper bound on that, so it never runs out. -/
def chainGo (adj : List (List Nat)) : Nat → List (Nat × Nat) → List Nat → Nat → Nat
  | 0, _, _, maxLen => maxLen
  | _ + 1, [], _, maxLen => maxLen
  | fuel + 1, (node, depth) :: rest, visited, maxLen =>
    let maxLen' := if maxLen < depth then depth else maxLen
    let step := (adj.getD node []).foldl
      (fun (sv : List (Nat × Nat) × List Nat) neighbor =>
        if neighbor ∈ sv.2 then sv
        else ((neighbor, depth + 1) :: sv.1, neighbor :: sv.2))
      (rest, visited)
    chainGo adj fuel step.1 step.2 maxLen'

/-- `getChainLength()` (src/chemistry/Molecule.ts): the depth-first
stack traversal from every start atom, sharing one visited set per start;
`maxLen` starts at 1 and accumulates across starts.  The cache
(`_cachedChainLength`) only memoises this pure computation. -/
def Molecule.getChainLength (m : Molecule) : Nat :=
  if m.atoms.length = 0 then 0
  else
    let adj := buildAdjacency m.atoms.length m.bonds
    (List.range m.atoms.length).foldl
      (fun maxLen start => chainGo adj (2 * m.bonds.length + 2) [(start, 1)] [start] maxLen)
      1

/-- `MoleculePattern`: each field optional, as in the source interface. -/
structure MoleculePattern where
  minAtoms : Option Nat
  requiredElements : Option (List Element)
  minChainLength : Option Nat
deriving DecidableEq

/-- `matchesPattern(mol, pattern)`: the three early-return checks as a
conjunction (atom count, required elements present, chain length). -/
def matchesPattern (mol : Molecule) (pattern : MoleculePattern) : Bool :=
  (match pattern.minAtoms with
   | none => true
   | some n => decide (n ≤ mol.atoms.length)) &&
  (match pattern.requiredElements with
   | none => true
   | some reqs => reqs.all (fun req => mol.atoms.any (fun a => decide (a.element = req)))) &&
  (match pattern.minChainLength with
   | none => true
   | some n => decide (n ≤ mol.getChainLength))

/-- `ReactionRule`.  The two reactant patterns are the fields `reactant1` /
`reactant2`, the temperature range the fields `tempLo` / `tempHi`; a missing
`autocatalytic?` is `false`. -/
structure ReactionRule where
  name : String
  reactant1 : MoleculePattern
  reactant2 : MoleculePattern
  products : List MoleculePattern
  activationEnergy : ℚ
  energyDelta : ℚ
  isExergonic : Bool
  catalystPattern : Option MoleculePattern
  catalyticReduction : ℚ
  tempLo : ℚ
  tempHi : ℚ
  probability : ℚ
  autocatalytic : Bool
deriving DecidableEq

def REDOX_FAVORABLE_THRESHOLD : ℚ := -1.0

def DOUBLE_BOND_ELECTRONEGATIVITY_THRESHOLD : ℚ := 0.1

def synthesisRule : ReactionRule :=
  { name := "synthesis"
    reactant1 := ⟨some 1, none, none⟩
    reactant2 := ⟨some 1, none, none⟩
    products := [⟨some 2, none, none⟩]
    activationEnergy := 5
    energyDelta := -2
    isExergonic := true
    catalystPattern := none
    catalyticReduction := 0.5
    tempLo := 0
    tempHi := 500
    probability := 0.3
    autocatalytic := false }

def decompositionRule : ReactionRule :=
  { name := "decomposition"
    reactant1 := ⟨some 3, none, none⟩
    reactant2 := ⟨some 1, none, none⟩
    products := [⟨some 1, none, none⟩, ⟨some 1, none, none⟩]
    activationEnergy := 15
    energyDelta := 5
    isExergonic := false
    catalystPattern := none
    catalyticReduction := 0.4
    tempLo := 200
    tempHi := 1000
    probability := 0.1
    autocatalytic := false }

def polymerizationRule : ReactionRule :=
  { name := "polymerization"
    reactant1 := ⟨some 2, some [.C], none⟩
    reactant2 := ⟨some 1, none, none⟩
    products := [⟨some 3, none, none⟩]
    activationEnergy := 8
    energyDelta := -3
    isExergonic := true
    catalystPattern := none
    catalyticReduction := 0.6
    tempLo := 50
    tempHi := 400
    probability := 0.15
    autocatalytic := false }

def catalyticRule : ReactionRule :=
  { name := "catalytic"
    reactant1 := ⟨some 1, none, none⟩
    reactant2 := ⟨some 1, none, none⟩
    products := [⟨some 2, none, none⟩]
    activationEnergy := 3
    energyDelta := -1
    isExergonic := true
    catalystPattern := some ⟨some 3, none, some 2⟩
    catalyticReduction := 0.7
    tempLo := 0
    tempHi := 600
    probability := 0.25
    autocatalytic := false }

def energyTransferRule : ReactionRule :=
  { name := "energy_transfer"
    reactant1 := ⟨some 1, some [.P], none⟩
    reactant2 := ⟨some 1, none, none⟩
    products := [⟨some 1, none, none⟩, ⟨some 1, none, none⟩]
    activationEnergy := 2
    energyDelta := 0
    isExergonic := false
    catalystPattern := none
    catalyticReduction := 0.3
    tempLo := 0
    tempHi := 800
    probability := 0.2
    autocatalytic := false }

def autocatalyticRule : ReactionRule :=
  { name := "autocatalytic"
    reactant1 := ⟨some 3, none, some 2⟩
    reactant2 := ⟨some 2, none, none⟩
    products := [⟨some 4, none, none⟩]
    activationEnergy := 4
    energyDelta := -2
    isExergonic := true
    catalystPattern := none
    catalyticReduction := 0.8
    tempLo := 50
    tempHi := 500
    probability := 0.1
    autocatalytic := true }

def hydrolysisRule : ReactionRule :=
  { name := "hydrolysis"
    reactant1 := ⟨some 4, none, some 3⟩
    reactant2 := ⟨some 1, none, none⟩
    products := [⟨some 1, none, none⟩, ⟨some 1, none, none⟩]
    activationEnergy := 6
    energyDelta := 3
    isExergonic := false
    catalystPattern := none
    catalyticReduction := 0.3
    tempLo := 0
    tempHi := 400
    probability := 0.08
    autocatalytic := false }

def CORE_RULES : List ReactionRule :=
  [synthesisRule, decompositionRule, polymerizationRule, catalyticRule,
   energyTransferRule, autocatalyticRule, hydrolysisRule]

/-- The effective activation energy `checkReaction` compares against:
the base, times `(1 - catalyticReduction)` when both a catalyst and a
catalyst pattern are present (at the comparison point the catalyst has
already been matched against the pattern), times `0.3` for an autocatalytic
rule whose two reactants share a formula. -/
def effectiveActivation (rule : ReactionRule) (mol1 mol2 : Molecule)
    (catalyst : Option Molecule) : ℚ :=
  let ea0 := rule.activationEnergy
  let ea1 := if catalyst.isSome ∧ rule.catalystPattern.isSome
    then ea0 * (1 - rule.catalyticReduction) else ea0
  if rule.autocatalytic ∧ mol1.getFormula = mol2.getFormula then ea1 * 0.3 else ea1

/-- One iteration of the `checkReaction` rule loop: `none` is the source's
`continue`, `some` its `return {...rule, probability}`. -/
def tryRule (mol1 mol2 : Molecule) (temperature : ℚ) (catalyst : Option Molecule)
    (wetness : ℚ) (rule : ReactionRule) : Option ReactionRule :=
  -- temperature range gate
  if temperature < rule.tempLo ∨ rule.tempHi < temperature then none
  -- reactant patterns, tried in both orderings
  else if ¬(matchesPattern mol1 rule.reactant1 && matchesPattern mol2 rule.reactant2 ||
            matchesPattern mol1 rule.reactant2 && matchesPattern mol2 rule.reactant1) then none
  -- catalyst requirement
  else if (match rule.catalystPattern, catalyst with
           | some pat, some c => ! matchesPattern c pat
           | some _, none => true
           | none, _ => false) then none
  -- very wet suppresses condensation-class rules
  else if (rule.name = "polymerization" ∨ rule.name = "synthesis" ∨
             rule.name = "autocatalytic") ∧
           (0.8 < wetness ∧ 0.5 < (wetness - 0.8) * 5) then none
  -- dry suppresses hydrolysis
  else if rule.name = "hydrolysis" ∧ wetness < 0.4 then none
  -- activation energy gate
  else if mol1.energy + mol2.energy + temperature * 0.1 <
      effectiveActivation rule mol1 mol2 catalyst then none
  else
    some { rule with probability :=
      (if rule.isExergonic ∧
            mol1.redoxPotential + mol2.redoxPotential < REDOX_FAVORABLE_THRESHOLD
        then min 1 (rule.probability * 1.5) else rule.probability) }

/-- The `for (const rule of this.rules)` loop of `checkReaction`: first
matching rule in declaration order wins. -/
def checkRules (mol1 mol2 : Molecule) (temperature : ℚ) (catalyst : Option Molecule)
    (wetness : ℚ) : List ReactionRule → Option ReactionRule
  | [] => none
  | rule :: rest =>
    match tryRule mol1 mol2 temperature catalyst wetness rule with
    | some r => some r
    | none => checkRules mol1 mol2 temperature catalyst wetness rest

/-- `ReactionSystem`: `this.rules = [...CORE_RULES, ...additionalRules]`. -/
structure ReactionSystem where
  rules : List ReactionRule
deriving DecidableEq

def mkReactionSystem (additionalRules : List ReactionRule) : ReactionSystem :=
  ⟨CORE_RULES ++ additionalRules⟩

/-- `checkReaction(mol1, mol2, temperature, catalyst?, wetness = 1.0)`. -/
def ReactionSystem.checkReaction (sys : ReactionSystem) (mol1 mol2 : Molecule)
    (temperature : ℚ) (catalyst : Option Molecule) (wetness : ℚ) : Option ReactionRule :=
  checkRules mol1 mol2 temperature catalyst wetness sys.rules

/-- The `new Molecule(atoms, bonds, position, energy)` call sites of the
reaction executors.  The constructor's derived attributes (mass, polarity,
half-life, redox) are recomputed by the full class, whose file also gives the
fresh id; none of them is read by a verified operation, so the redox
attribute of a fresh product is left at zero here. -/
def mkMolecule (atoms : List Atom) (bonds : List Bond) (position : Vector2)
    (energy : ℚ) : Molecule :=
  { atoms := atoms, bonds := bonds, position := position, energy := energy,
    redoxPotential := 0, catalyticSites := [] }

/-- `findAvailableBondSite(atoms, _bonds, _baseOffset)`: index of the first
atom with a free bond site, else `-1` (the two underscore parameters are
unused in the source). -/
def findAvailableBondSite (atoms : List Atom) : Int :=
  match atoms.findIdx? (fun a => decide (a.bondCount < (ELEMENT_PROPERTIES a.element).bondSites)) with
  | some i => (i : Int)
  | none => -1

/-- `atoms[i].bondCount++` on a list of atoms. -/
def bumpBondCount (atoms : List Atom) (i : Nat) : List Atom :=
  match atoms.get? i with
  | some a => atoms.set i { a with bondCount := a.bondCount + 1 }
  | none => atoms

/-- `executeSynthesis`: concatenate the atom lists, remap the second
molecule's bonds by the offset (the remap drops the optional `order` field),
then — if both molecules report an available site — either refuse (both
candidate sites already at max: the source's `return []`) or add the
connecting bond, choosing type and order from the electronegativity
difference and bumping the two bond counts. -/
def executeSynthesis (mol1 mol2 : Molecule) (totalEnergy : ℚ)
    (position : Vector2) : List Molecule :=
  let offset := mol1.atoms.length
  let atoms := mol1.atoms ++ mol2.atoms
  let bonds := mol1.bonds ++ mol2.bonds.map (fun b =>
    { atomA := b.atomA + offset, atomB := b.atomB + offset,
      strength := b.strength, type := b.type, order := none })
  let a1 := findAvailableBondSite mol1.atoms
  let a2 := findAvailableBondSite mol2.atoms
  let merged : Option (List Atom × List Bond) :=
    if 0 ≤ a1 ∧ 0 ≤ a2 then
      let i1 := a1.toNat
      let i2 := a2.toNat + offset
      let atomA := atoms.getD i1 ⟨.H, 0⟩
      let atomB := atoms.getD i2 ⟨.H, 0⟩
      let maxBondsA := (ELEMENT_PROPERTIES atomA.element).bondSites
      let maxBondsB := (ELEMENT_PROPERTIES atomB.element).bondSites
      if maxBondsA ≤ atomA.bondCount ∧ maxBondsB ≤ atomB.bondCount then
        none
      else
        let diff := |(ELEMENT_PROPERTIES atomA.element).electronegativity -
          (ELEMENT_PROPERTIES atomB.element).electronegativity|
        let bondType := if 0.4 < diff then BondType.ionic else BondType.covalent
        let bondOrder := if diff < DOUBLE_BOND_ELECTRONEGATIVITY_THRESHOLD ∧
            atomA.bondCount < maxBondsA - 1 ∧ atomB.bondCount < maxBondsB - 1
          then BondOrder.double else BondOrder.single
        some (bumpBondCount (bumpBondCount atoms i1) i2,
          bonds ++ [⟨i1, i2, 1 - diff * 0.5, bondType, some bondOrder⟩])
    else some (atoms, bonds)
  match merged with
  | none => []
  | some (atoms', bonds') =>
    [{ mkMolecule atoms' bonds' position (max 0 totalEnergy) with
        catalyticSites := mol1.catalyticSites ++ mol2.catalyticSites }]

/-- `executeDecomposition`: split the larger molecule at a random cut point,
partitioning energy proportionally to atom count; bond counts of the split
halves are rebuilt from the surviving bonds. -/
def executeDecomposition (mol1 mol2 : Molecule) (totalEnergy : ℚ)
    (position : Vector2) (rng : Random) : List Molecule × Random :=
  let source := if mol2.atoms.length ≤ mol1.atoms.length then mol1 else mol2
  if source.atoms.length ≤ 1 then
    ([mkMolecule source.atoms [] position totalEnergy], rng)
  else
    let (spz, r1) := Random.int rng 1 (source.atoms.length : ℚ)
    let splitPoint := spz.toNat
    let atomsA := (source.atoms.take splitPoint).map (fun a => { a with bondCount := 0 })
    let atomsB := (source.atoms.drop splitPoint).map (fun a => { a with bondCount := 0 })
    let bondsA := source.bonds.filter (fun b =>
      decide (b.atomA < splitPoint) && decide (b.atomB < splitPoint))
    let atomsA' := bondsA.foldl (fun acc b => bumpBondCount (bumpBondCount acc b.atomA) b.atomB) atomsA
    let bondsB := (source.bonds.filter (fun b =>
      decide (splitPoint ≤ b.atomA) && decide (splitPoint ≤ b.atomB))).map (fun b =>
        { b with atomA := b.atomA - splitPoint, atomB := b.atomB - splitPoint })
    let atomsB' := bondsB.foldl (fun acc b => bumpBondCount (bumpBondCount acc b.atomA) b.atomB) atomsB
    let energyA := totalEnergy * ((atomsA.length : ℚ) / (source.atoms.length : ℚ))
    let energyB := totalEnergy - energyA
    let (offset, r2) := Random.range r1 (-1) 1
    let posA := position.add ⟨offset, -offset⟩
    let posB := position.add ⟨-offset, offset⟩
    ([mkMolecule atomsA' bondsA posA (max 0 energyA),
      mkMolecule atomsB' bondsB posB (max 0 energyB)], r2)

/-- `executeEnergyTransfer`: atoms unchanged, energy split evenly
(`_rng` is unused in the source). -/
def executeEnergyTransfer (mol1 mol2 : Molecule) (totalEnergy : ℚ)
    (rng : Random) : List Molecule × Random :=
  let half := totalEnergy / 2
  ([{ mkMolecule mol1.atoms mol1.bonds mol1.position (max 0 half) with
        catalyticSites := mol1.catalyticSites },
    { mkMolecule mol2.atoms mol2.bonds mol2.position (max 0 half) with
        catalyticSites := mol2.catalyticSites }], rng)

/-- `executeReaction(mol1, mol2, rule, rng)`: one more draw against the
(possibly boosted) probability, then dispatch by rule name; the default
branch is the synthesis merge. -/
def ReactionSystem.executeReaction (mol1 mol2 : Molecule) (rule : ReactionRule)
    (rng : Random) : List Molecule × Random :=
  let (u, r1) := Random.next rng
  if rule.probability < u then ([], r1)
  else
    let midPos := mol1.position.lerp mol2.position 0.5
    let totalEnergy := mol1.energy + mol2.energy + rule.energyDelta
    if rule.name = "decomposition" then
      executeDecomposition mol1 mol2 totalEnergy midPos r1
    else if rule.name = "energy_transfer" then
      executeEnergyTransfer mol1 mol2 totalEnergy r1
    else
      (executeSynthesis mol1 mol2 totalEnergy midPos, r1)

theorem effectiveActivation_symm (rule : ReactionRule) (mol1 mol2 : Molecule)
    (catalyst : Option Molecule) :
    effectiveActivation rule mol2 mol1 catalyst =
      effectiveActivation rule mol1 mol2 catalyst := by
  unfold effectiveActivation
  refine if_congr ?_ rfl rfl
  constructor <;> rintro ⟨ha, hf⟩ <;> exact ⟨ha, hf.symm⟩

theorem tryRule_symm (mol1 mol2 : Molecule) (temperature : ℚ)
    (catalyst : Option Molecule) (wetness : ℚ) (rule : ReactionRule) :
    tryRule mol2 mol1 temperature catalyst wetness rule =
      tryRule mol1 mol2 temperature catalyst wetness rule := by
  unfold tryRule
  rw [effectiveActivation_symm,
    Bool.or_comm (matchesPattern mol2 rule.reactant1 && matchesPattern mol1 rule.reactant2)
      (matchesPattern mol2 rule.reactant2 && matchesPattern mol1 rule.reactant1),
    Bool.and_comm (matchesPattern mol2 rule.reactant2) (matchesPattern mol1 rule.reactant1),
    Bool.and_comm (matchesPattern mol2 rule.reactant1) (matchesPattern mol1 rule.reactant2),
    add_comm mol2.energy mol1.energy,
    add_comm mol2.redoxPotential mol1.redoxPotential]

theorem checkRules_symm (mol1 mol2 : Molecule) (temperature : ℚ)
    (catalyst : Option Molecule) (wetness : ℚ) :
    ∀ rules, checkRules mol2 mol1 temperature catalyst wetness rules =
      checkRules mol1 mol2 temperature catalyst wetness rules
  | [] => rfl
  | rule :: rest => by
    unfold checkRules
    rw [tryRule_symm,
      checkRules_symm mol1 mol2 temperature catalyst wetness rest]

/-- C3: reaction pattern matching is symmetric in the two molecules — for
every rule list, temperature, optional catalyst and wetness,
`checkReaction(a, b, …)` and `checkReaction(b, a, …)` select the same rule
(or both return none). -/
theorem checkReaction_symmetric (sys : ReactionSystem) (a b : Molecule)
    (temperature : ℚ) (catalyst : Option Molecule) (wetness : ℚ) :
    sys.checkReaction a b temperature catalyst wetness =
      sys.checkReaction b a temperature catalyst wetness :=
  (checkRules_symm a b temperature catalyst wetness sys.rules).symm

theorem tryRule_some (mol1 mol2 : Molecule) (temperature : ℚ)
    (catalyst : Option Molecule) (wetness : ℚ) (rule r : ReactionRule)
    (h : tryRule mol1 mol2 temperature catalyst wetness rule = some r) :
    effectiveActivation r mol1 mol2 catalyst ≤
        mol1.energy + mol2.energy + temperature * 0.1 ∧
    (∀ pat, r.catalystPattern = some pat →
        ∃ c, catalyst = some c ∧ matchesPattern c pat = true) := by
  unfold tryRule at h
  split_ifs at h with h1 h2 h3 h4 h5 h6 h7 <;> try exact Option.noConfusion h
  all_goals
    obtain rfl := Option.some.inj h
    refine ⟨le_of_not_lt h6, fun pat hpat => ?_⟩
    have hr : rule.catalystPattern = some pat := hpat
    rw [hr] at h3
    cases catalyst with
    | none => exact absurd rfl h3
    | some c => exact ⟨c, rfl, by simpa using h3⟩

theorem checkRules_some (mol1 mol2 : Molecule) (temperature : ℚ)
    (catalyst : Option Molecule) (wetness : ℚ) :
    ∀ (rules : List ReactionRule) (r : ReactionRule),
      checkRules mol1 mol2 temperature catalyst wetness rules = some r →
      effectiveActivation r mol1 mol2 catalyst ≤
          mol1.energy + mol2.energy + temperature * 0.1 ∧
      (∀ pat, r.catalystPattern = some pat →
          ∃ c, catalyst = some c ∧ matchesPattern c pat = true)
  | [], r, h => by simp [checkRules] at h
  | rule :: rest, r, h => by
    unfold checkRules at h
    cases ht : tryRule mol1 mol2 temperature catalyst wetness rule with
    | some r' =>
      rw [ht] at h
      exact (Option.some.inj h) ▸ tryRule_some mol1 mol2 temperature catalyst wetness rule r' ht
    | none =>
      rw [ht] at h
      exact checkRules_some mol1 mol2 temperature catalyst wetness rest r h

/-- C7: `checkReaction` returns a rule only when the energy-eligibility
inequality holds — `mol1.energy + mol2.energy + temperature*0.1` is at least
the effective activation energy (the rule's base, reduced by
`(1 - catalyticReduction)` when a catalyst is supplied for a rule with a
catalyst pattern, and further reduced for autocatalytic rules whose two
reactants share a formula); moreover, whenever the selected rule carries a
catalyst pattern, the supplied catalyst exists and matches it. -/
theorem checkReaction_energy_gate (sys : ReactionSystem) (mol1 mol2 : Molecule)
    (temperature : ℚ) (catalyst : Option Molecule) (wetness : ℚ) (r : ReactionRule)
    (h : sys.checkReaction mol1 mol2 temperature catalyst wetness = some r) :
    effectiveActivation r mol1 mol2 catalyst ≤
        mol1.energy + mol2.energy + temperature * 0.1 ∧
    (∀ pat, r.catalystPattern = some pat →
        ∃ c, catalyst = some c ∧ matchesPattern c pat = true) :=
  checkRules_some mol1 mol2 temperature catalyst wetness sys.rules r h

theorem checkReaction_energy_gate_witness :
    effectiveActivation synthesisRule molH molH none ≤
        molH.energy + molH.energy + 100 * 0.1 ∧
    (∀ pat, synthesisRule.catalystPattern = some pat →
        ∃ c, (none : Option Molecule) = some c ∧ matchesPattern c pat = true) :=
  checkReaction_energy_gate (mkReactionSystem []) molH molH 100 none (1 / 2)
    synthesisRule (by
      norm_num [ReactionSystem.checkReaction, mkReactionSystem, CORE_RULES, checkRules,
        tryRule, synthesisRule, matchesPattern, molH, effectiveActivation,
        REDOX_FAVORABLE_THRESHOLD])

/-- Two bonded hydrogen atoms, each at its maximum bond count (hydrogen has
one bond site): a fully saturated molecule. -/
def molH2sat : Molecule :=
  { atoms := [⟨.H, 1⟩, ⟨.H, 1⟩], bonds := [⟨0, 1, 1, BondType.covalent, none⟩],
    position := ⟨0, 0⟩, energy := 1, redoxPotential := 0, catalyticSites := [] }

/-- C4 (refuted on the code): executing a synthesis on two molecules in
which no atom has a free bond site does not return an empty product list.
`findAvailableBondSite` reports `-1` for both molecules, so the bonding
block — including its `return []` refusal, which is unreachable anyway
because `findAvailableBondSite` only ever reports an atom strictly below its
maximum — is skipped, and one merged-but-unbonded product is returned; the
same holds through `executeReaction` when the probability draw passes
(seed 0 draws ≈ 0.266 ≤ 0.3). -/
theorem executeSynthesis_saturated_returns_product :
    (∀ a ∈ molH2sat.atoms, (ELEMENT_PROPERTIES a.element).bondSites ≤ a.bondCount) ∧
    findAvailableBondSite molH2sat.atoms = -1 ∧
    (executeSynthesis molH2sat molH2sat 2 ⟨0, 0⟩).length = 1 ∧
    executeSynthesis molH2sat molH2sat 2 ⟨0, 0⟩ ≠ [] ∧
    (ReactionSystem.executeReaction molH2sat molH2sat synthesisRule ⟨0⟩).1.length = 1 := by
  have hsyn : (executeSynthesis molH2sat molH2sat 2 ⟨0, 0⟩).length = 1 := by
    norm_num [executeSynthesis, findAvailableBondSite, molH2sat, ELEMENT_PROPERTIES]
  have hw : Random.nextWord ⟨0⟩ = (1144304738, ⟨0x6d2b79f5⟩) := by decide
  refine ⟨by decide, by decide, hsyn, ?_, ?_⟩
  · intro hnil
    rw [hnil] at hsyn
    exact absurd hsyn (by norm_num)
  · have hrun : (ReactionSystem.executeReaction molH2sat molH2sat synthesisRule ⟨0⟩).1 =
        executeSynthesis molH2sat molH2sat
          (molH2sat.energy + molH2sat.energy + synthesisRule.energyDelta)
          (molH2sat.position.lerp molH2sat.position 0.5) := by
      norm_num [ReactionSystem.executeReaction, Random.next, hw, two32, synthesisRule]
      rw [if_neg (by decide : ¬("synthesis" = "decomposition")),
        if_neg (by decide : ¬("synthesis" = "energy_transfer"))]
    rw [hrun]
    norm_num [executeSynthesis, findAvailableBondSite, molH2sat, ELEMENT_PROPERTIES]

/-!  NEAT genomes (src/neural/NEAT.ts).  -/

inductive NodeType
  | input
  | hidden
  | output
deriving DecidableEq

/-- `NodeGene`: id, role, activation-function name, bias. -/
structure NodeGene where
  id : Int
  type : NodeType
  activation : String
  bias : ℚ
deriving DecidableEq

/-- `ConnectionGene`. -/
structure ConnectionGene where
  innovationNumber : Int
  inNode : Int
  outNode : Int
  weight : ℚ
  enabled : Bool
deriving DecidableEq

/-- `NEATGenome`. -/
structure NEATGenome where
  nodeGenes : List NodeGene
  connectionGenes : List ConnectionGene
  fitness : ℚ
  species : Int
deriving DecidableEq

/-- `new Map(list.map(x => [key(x), x])).get(k)`: a JavaScript `Map` built
from a keyed list keeps the last entry per key. -/
def jsMapGet {α : Type _} (l : List α) (key : α → Int) (k : Int) : Option α :=
  l.reverse.find? (fun x => decide (key x = k))

theorem jsMapGet_eq_some {α : Type _} {l : List α} {key : α → Int} {k : Int} {x : α}
    (h : jsMapGet l key k = some x) : x ∈ l ∧ key x = k := by
  unfold jsMapGet at h
  refine ⟨List.mem_reverse.mp (List.mem_of_find?_eq_some h), ?_⟩
  simpa using List.find?_some h

theorem jsMapGet_isSome {α : Type _} {l : List α} {key : α → Int} {k : Int} {x : α}
    (hx : x ∈ l) (hk : key x = k) : (jsMapGet l key k).isSome = true := by
  unfold jsMapGet
  exact List.find?_isSome.mpr ⟨x, List.mem_reverse.mpr hx, by simpa using hk⟩

theorem jsMapGet_self {α : Type _} {l : List α} {key : α → Int}
    (hnd : (l.map key).Nodup) {c : α} (hc : c ∈ l) :
    jsMapGet l key (key c) = some c := by
  cases hfind : jsMapGet l key (key c) with
  | none =>
    have := @jsMapGet_isSome _ l key (key c) c hc rfl
    rw [hfind] at this
    simp at this
  | some x =>
    obtain ⟨hxl, hxk⟩ := jsMapGet_eq_some hfind
    have : x = c := List.inj_on_of_nodup_map hnd hxl hc hxk
    rw [this]

/-- `childNodes.sort((a, b) => a.id - b.id)`: stable sort by node id. -/
def sortById (l : List NodeGene) : List NodeGene :=
  l.mergeSort (fun a b => decide (a.id ≤ b.id))

/-- The child-connection loop of `crossoverGenomes`: every connection gene
of the fitter parent is inherited; for a matching innovation in the less-fit
parent a coin flip picks which side's copy is taken. -/
def crossoverConnections (fit less : NEATGenome) (rng : Random) :
    List ConnectionGene × Random :=
  fit.connectionGenes.foldl
    (fun (acc : List ConnectionGene × Random) conn =>
      match jsMapGet less.connectionGenes (fun c => c.innovationNumber)
          conn.innovationNumber with
      | some matchingConn =>
        let (b, r') := Random.bool acc.2 0.5
        (acc.1 ++ [if b then conn else matchingConn], r')
      | none => (acc.1 ++ [conn], acc.2))
    ([], rng)

/-- The `nodeIds` set of `crossoverGenomes`: every node id referenced by a
child connection, in first-insertion order (a JavaScript `Set`). -/
def connectionNodeIds (conns : List ConnectionGene) : List Int :=
  conns.foldl
    (fun ids c =>
      let ids1 := if c.inNode ∈ ids then ids else ids ++ [c.inNode]
      if c.outNode ∈ ids1 then ids1 else ids1 ++ [c.outNode])
    []

/-- The node-resolution loop of `crossoverGenomes`:
`fitNodeMap.get(id) ?? lessNodeMap.get(id)`, skipping unresolved ids. -/
def resolveNodes (fit less : NEATGenome) (ids : List Int) : List NodeGene :=
  ids.foldl
    (fun acc i =>
      match (jsMapGet fit.nodeGenes (fun n => n.id) i).orElse
          (fun _ => jsMapGet less.nodeGenes (fun n => n.id) i) with
      | some node => acc ++ [node]
      | none => acc)
    []

/-- One step of the preserve-input/output loop: append a non-hidden node of
the fitter parent unless a node with its id is already present. -/
def preserveStep (acc : List NodeGene) (node : NodeGene) : List NodeGene :=
  if node.type ≠ NodeType.hidden ∧
      ¬(acc.any (fun n => decide (n.id = node.id)) = true)
  then acc ++ [node] else acc

/-- The `crossoverGenomes` body once the fitter parent is determined. -/
def crossoverFromFitter (fit less : NEATGenome) (rng : Random) :
    NEATGenome × Random :=
  let step := crossoverConnections fit less rng
  let childNodes1 := fit.nodeGenes.foldl preserveStep
    (resolveNodes fit less (connectionNodeIds step.1))
  ({ nodeGenes := sortById childNodes1, connectionGenes := step.1,
     fitness := 0, species := 0 }, step.2)

/-- `crossoverGenomes(parent1, parent2, rng)`: the fitter parent (ties to
`parent1`) contributes every connection gene, matching genes are inherited
from either side by a coin flip; child nodes are the nodes referenced by the
child connections (looked up fitter-parent-first), plus every non-hidden
node of the fitter parent not already present, sorted by id. -/
def crossoverGenomes (parent1 parent2 : NEATGenome) (rng : Random) :
    NEATGenome × Random :=
  crossoverFromFitter
    (if parent2.fitness ≤ parent1.fitness then parent1 else parent2)
    (if parent2.fitness ≤ parent1.fitness then parent2 else parent1)
    rng

/-- The input/output id view of a genome: ids of its nodes of role `t`. -/
def ioIds (g : NEATGenome) (t : NodeType) : List Int :=
  (g.nodeGenes.filter (fun n => decide (n.type = t))).map (fun n => n.id)

theorem mem_ioIds {g : NEATGenome} {t : NodeType} {i : Int} :
    i ∈ ioIds g t ↔ ∃ n ∈ g.nodeGenes, n.type = t ∧ n.id = i := by
  simp [ioIds, and_assoc]

/-- Where a child node can come from: the fitter parent, or — only when the
fitter parent has no node of that id — the less-fit parent. -/
def crossNodeInv (fit less : NEATGenome) (m : NodeGene) : Prop :=
  m ∈ fit.nodeGenes ∨
    (m ∈ less.nodeGenes ∧ jsMapGet fit.nodeGenes (fun n => n.id) m.id = none)

theorem resolveNodes_fold_inv (fit less : NEATGenome) :
    ∀ (ids : List Int) (acc : List NodeGene),
      (∀ m ∈ acc, crossNodeInv fit less m) →
      ∀ m ∈ ids.foldl
        (fun acc i =>
          match (jsMapGet fit.nodeGenes (fun n => n.id) i).orElse
              (fun _ => jsMapGet less.nodeGenes (fun n => n.id) i) with
          | some node => acc ++ [node]
          | none => acc)
        acc, crossNodeInv fit less m
  | [], acc, hacc, m => hacc m
  | i :: rest, acc, hacc, m => by
    intro hm
    refine resolveNodes_fold_inv fit less rest _ ?_ m (by simpa using hm)
    intro x hx
    cases hf : jsMapGet fit.nodeGenes (fun n => n.id) i with
    | some n =>
      rw [show ((jsMapGet fit.nodeGenes (fun n => n.id) i).orElse
          (fun _ => jsMapGet less.nodeGenes (fun n => n.id) i)) = some n from by
        rw [hf]; rfl] at hx
      rcases List.mem_append.mp hx with h | h
      · exact hacc x h
      · have hx' : x = n := by simpa using h
        exact Or.inl (hx' ▸ (jsMapGet_eq_some hf).1)
    | none =>
      rw [show ((jsMapGet fit.nodeGenes (fun n => n.id) i).orElse
          (fun _ => jsMapGet less.nodeGenes (fun n => n.id) i)) =
          jsMapGet less.nodeGenes (fun n => n.id) i from by rw [hf]; rfl] at hx
      cases hl : jsMapGet less.nodeGenes (fun n => n.id) i with
      | none =>
        rw [hl] at hx
        exact hacc x hx
      | some n =>
        rw [hl] at hx
        rcases List.mem_append.mp hx with h | h
        · exact hacc x h
        · have hx' : x = n := by simpa using h
          subst hx'
          refine Or.inr ⟨(jsMapGet_eq_some hl).1, ?_⟩
          rw [(jsMapGet_eq_some hl).2, hf]

theorem resolveNodes_inv (fit less : NEATGenome) (ids : List Int) :
    ∀ m ∈ resolveNodes fit less ids, crossNodeInv fit less m :=
  resolveNodes_fold_inv fit less ids [] (by simp)

theorem preserve_fold_inv (fit less : NEATGenome) :
    ∀ (l : List NodeGene) (acc : List NodeGene),
      (∀ m ∈ acc, crossNodeInv fit less m) → (∀ n ∈ l, n ∈ fit.nodeGenes) →
      ∀ m ∈ l.foldl preserveStep acc, crossNodeInv fit less m
  | [], acc, hacc, _, m => hacc m
  | node :: rest, acc, hacc, hl, m => by
    intro hm
    refine preserve_fold_inv fit less rest (preserveStep acc node) ?_
      (fun x hx => hl x (by simp [hx])) m (by simpa using hm)
    intro x hx
    unfold preserveStep at hx
    split_ifs at hx
    · rcases List.mem_append.mp hx with h | h
      · exact hacc x h
      · have hx' : x = node := by simpa using h
        exact Or.inl (hx' ▸ hl node (by simp))
    · exact hacc x hx

theorem preserve_fold_mono :
    ∀ (l acc : List NodeGene), acc ⊆ l.foldl preserveStep acc
  | [], _ => fun _ h => h
  | node :: rest, acc => by
    intro x hx
    refine preserve_fold_mono rest (preserveStep acc node) ?_
    unfold preserveStep
    split_ifs
    · exact List.mem_append.mpr (Or.inl hx)
    · exact hx

theorem preserve_fold_complete :
    ∀ (l acc : List NodeGene) (n : NodeGene), n ∈ l → n.type ≠ NodeType.hidden →
      ∃ m ∈ l.foldl preserveStep acc, m.id = n.id
  | [], _, n, hn, _ => absurd hn (by simp)
  | node :: rest, acc, n, hn, ht => by
    rcases List.mem_cons.mp hn with rfl | hn'
    · by_cases hany : acc.any (fun x => decide (x.id = n.id)) = true
      · obtain ⟨m, hm, hmid⟩ := List.any_eq_true.mp hany
        refine ⟨m, ?_, by simpa using hmid⟩
        refine preserve_fold_mono rest (preserveStep acc n) ?_
        unfold preserveStep
        split_ifs
        · exact List.mem_append.mpr (Or.inl hm)
        · exact hm
      · refine ⟨n, ?_, rfl⟩
        refine preserve_fold_mono rest (preserveStep acc n) ?_
        unfold preserveStep
        rw [if_pos ⟨ht, hany⟩]
        simp
    · exact preserve_fold_complete rest (preserveStep acc node) n hn' ht

theorem crossoverFromFitter_io (fit less : NEATGenome) (rng : Random)
    (hfit : (fit.nodeGenes.map (fun n => n.id)).Nodup)
    (hio : ∀ t, t ≠ NodeType.hidden →
      ∀ i : Int, i ∈ ioIds less t ↔ i ∈ ioIds fit t) :
    ∀ t, t ≠ NodeType.hidden → ∀ i : Int,
      (i ∈ ioIds (crossoverFromFitter fit less rng).1 t ↔ i ∈ ioIds fit t) := by
  intro t ht i
  have hmem : ∀ m : NodeGene, m ∈ (crossoverFromFitter fit less rng).1.nodeGenes ↔
      m ∈ fit.nodeGenes.foldl preserveStep
        (resolveNodes fit less
          (connectionNodeIds (crossoverConnections fit less rng).1)) := by
    intro m
    exact List.mem_mergeSort
  have hInv : ∀ m ∈ fit.nodeGenes.foldl preserveStep
      (resolveNodes fit less
        (connectionNodeIds (crossoverConnections fit less rng).1)),
      crossNodeInv fit less m :=
    preserve_fold_inv fit less fit.nodeGenes _
      (resolveNodes_inv fit less _) (fun _ h => h)
  constructor
  · rw [mem_ioIds, mem_ioIds]
    rintro ⟨m, hm, hmt, hmi⟩
    have hm' := (hmem m).mp hm
    rcases hInv m hm' with hfitm | ⟨hlessm, hnone⟩
    · exact ⟨m, hfitm, hmt, hmi⟩
    · exfalso
      have hlio : m.id ∈ ioIds less t := mem_ioIds.mpr ⟨m, hlessm, hmt, rfl⟩
      obtain ⟨n, hn, _, hni⟩ := mem_ioIds.mp ((hio t ht m.id).mp hlio)
      have hsome := @jsMapGet_isSome _ fit.nodeGenes (fun n => n.id) m.id n hn hni
      rw [hnone] at hsome
      simp at hsome
  · rw [mem_ioIds, mem_ioIds]
    rintro ⟨n, hn, hnt, hni⟩
    obtain ⟨m, hm, hmi⟩ := preserve_fold_complete fit.nodeGenes _ n hn (hnt ▸ ht)
    have hmfit : m ∈ fit.nodeGenes := by
      rcases hInv m hm with h | ⟨_, hnone⟩
      · exact h
      · exfalso
        have hsome := @jsMapGet_isSome _ fit.nodeGenes (fun x => x.id) m.id n hn hmi.symm
        rw [hnone] at hsome
        simp at hsome
    have hmn : m = n := List.inj_on_of_nodup_map hfit hmfit hn hmi
    exact ⟨m, (hmem m).mpr hm, hmn ▸ hnt, hmn ▸ hni⟩

/-- C6: for two NEAT genomes with the same input and output node id sets
(node ids unique within each genome, as the NEAT construction guarantees),
the crossover child's input node ids and output node ids are exactly those
of the fitter parent (ties resolved toward the first parent) — every
non-hidden node of the fitter parent appears in the child and the child has
no input or output node id the fitter parent lacks. -/
theorem crossover_preserves_io (parent1 parent2 : NEATGenome) (rng : Random)
    (h1 : (parent1.nodeGenes.map (fun n => n.id)).Nodup)
    (h2 : (parent2.nodeGenes.map (fun n => n.id)).Nodup)
    (hin : ∀ i : Int,
      i ∈ ioIds parent1 NodeType.input ↔ i ∈ ioIds parent2 NodeType.input)
    (hout : ∀ i : Int,
      i ∈ ioIds parent1 NodeType.output ↔ i ∈ ioIds parent2 NodeType.output) :
    ∀ t, t ≠ NodeType.hidden → ∀ i : Int,
      (i ∈ ioIds (crossoverGenomes parent1 parent2 rng).1 t ↔
       i ∈ ioIds (if parent2.fitness ≤ parent1.fitness then parent1 else parent2) t) := by
  intro t ht i
  by_cases hf : parent2.fitness ≤ parent1.fitness
  · have hio : ∀ t', t' ≠ NodeType.hidden →
        ∀ j : Int, j ∈ ioIds parent2 t' ↔ j ∈ ioIds parent1 t' := by
      intro t' ht' j
      cases t' with
      | input => exact (hin j).symm
      | output => exact (hout j).symm
      | hidden => exact absurd rfl ht'
    have h := crossoverFromFitter_io parent1 parent2 rng h1 hio t ht i
    simpa [crossoverGenomes, hf] using h
  · have hio : ∀ t', t' ≠ NodeType.hidden →
        ∀ j : Int, j ∈ ioIds parent1 t' ↔ j ∈ ioIds parent2 t' := by
      intro t' ht' j
      cases t' with
      | input => exact hin j
      | output => exact hout j
      | hidden => exact absurd rfl ht'
    have h := crossoverFromFitter_io parent2 parent1 rng h2 hio t ht i
    simpa [crossoverGenomes, hf] using h

/-- `Math.max(...list)` over innovation numbers, `0` for an empty list (the
source's explicit empty-list guard). -/
def maxInnovation (l : List ConnectionGene) : Int :=
  match l.map (fun c => c.innovationNumber) with
  | [] => 0
  | x :: xs => xs.foldl max x

/-- The body of `geneticDistance`'s first loop (over `g1`'s genes): a gene
with a match in `g2` counts as matching and accumulates
`|c.weight - match.weight|`; otherwise it is disjoint when its innovation is
within the shared range, else excess.  The accumulator is
`(matching, weightDiffSum, disjoint, excess)`. -/
def gdStep1 (g2conns : List ConnectionGene) (maxInnovShared : Int)
    (a : Nat × ℚ × Nat × Nat) (c : ConnectionGene) : Nat × ℚ × Nat × Nat :=
  match jsMapGet g2conns (fun x => x.innovationNumber) c.innovationNumber with
  | some m => (a.1 + 1, a.2.1 + |c.weight - m.weight|, a.2.2.1, a.2.2.2)
  | none =>
    if c.innovationNumber ≤ maxInnovShared
    then (a.1, a.2.1, a.2.2.1 + 1, a.2.2.2)
    else (a.1, a.2.1, a.2.2.1, a.2.2.2 + 1)

/-- The body of `geneticDistance`'s second loop (over `g2`'s genes): a gene
whose innovation `g1` lacks is disjoint or excess by the shared range.  The
accumulator is `(disjoint, excess)`. -/
def gdStep2 (innov1 : List Int) (maxInnovShared : Int)
    (a : Nat × Nat) (c : ConnectionGene) : Nat × Nat :=
  if innov1.contains c.innovationNumber then a
  else if c.innovationNumber ≤ maxInnovShared
  then (a.1 + 1, a.2)
  else (a.1, a.2 + 1)

/-- `geneticDistance(g1, g2, c1, c2, c3)`: the standard NEAT distance,
`c1*excess/N + c2*disjoint/N + c3*meanWeightDiff` with
`N = max(len1, len2, 1)`. -/
def geneticDistance (g1 g2 : NEATGenome) (c1 c2 c3 : ℚ) : ℚ :=
  let maxInnovShared := min (maxInnovation g1.connectionGenes)
    (maxInnovation g2.connectionGenes)
  let acc1 := g1.connectionGenes.foldl
    (gdStep1 g2.connectionGenes maxInnovShared) (0, 0, 0, 0)
  let acc2 := g2.connectionGenes.foldl
    (gdStep2 (g1.connectionGenes.map (fun x => x.innovationNumber)) maxInnovShared)
    (0, 0)
  let matching := acc1.1
  let weightDiffSum := acc1.2.1
  let disjoint := acc1.2.2.1 + acc2.1
  let excess := acc1.2.2.2 + acc2.2
  let N : ℚ := max (max (g1.connectionGenes.length : ℚ) (g2.connectionGenes.length : ℚ)) 1
  let avgWeightDiff := if 0 < matching then weightDiffSum / (matching : ℚ) else 0
  (c1 * (excess : ℚ)) / N + (c2 * (disjoint : ℚ)) / N + c3 * avgWeightDiff

/-- The outer gene (src/organisms/Genome.ts): `GeneType` is an enumeration
tag; only the tag takes part in the verified operations, so it is kept
abstract as a number. -/
abbrev GeneType := Nat

structure Gene where
  type : GeneType
  parameters : List ℚ
  regulatory : ℚ
  enabled : Bool
deriving DecidableEq

/-- `Genome` (src/organisms/Genome.ts): outer gene list plus the embedded
NEAT genome. -/
structure Genome where
  genes : List Gene
  neuralGenome : NEATGenome
  mutationRate : ℚ
deriving DecidableEq

/-- `distanceTo(other)`: length penalty `|Δlen| * 0.5`, plus the positional
gene-type mismatch count over the common prefix (the `for i < minLen` loop,
as a zip), plus the NEAT distance with coefficients `(1, 1, 0.4)`. -/
def Genome.distanceTo (g other : Genome) : ℚ :=
  let geneDist := |(g.genes.length : ℚ) - (other.genes.length : ℚ)| * 0.5 +
    (((g.genes.zip other.genes).filter
        (fun p => decide (p.1.type ≠ p.2.type))).length : ℚ)
  geneDist + geneticDistance g.neuralGenome other.neuralGenome 1 1 0.4

theorem gdStep1_fold_self {conns : List ConnectionGene} {maxShared : Int}
    (hnd : (conns.map (fun c => c.innovationNumber)).Nodup) :
    ∀ (l : List ConnectionGene), (∀ c ∈ l, c ∈ conns) →
      ∀ (a : Nat × ℚ × Nat × Nat),
      l.foldl (gdStep1 conns maxShared) a = (a.1 + l.length, a.2.1, a.2.2.1, a.2.2.2)
  | [], _, a => by simp
  | c :: rest, hsub, a => by
    have hc : c ∈ conns := hsub c (by simp)
    have hbase := jsMapGet_self hnd hc
    simp only [List.foldl_cons, gdStep1, hbase]
    rw [gdStep1_fold_self hnd rest (fun x hx => hsub x (by simp [hx]))]
    simp [Prod.ext_iff, sub_self]
    omega

theorem gdStep2_fold_all_present {innov1 : List Int} {maxShared : Int} :
    ∀ (l : List ConnectionGene), (∀ c ∈ l, innov1.contains c.innovationNumber) →
      ∀ (a : Nat × Nat), l.foldl (gdStep2 innov1 maxShared) a = a
  | [], _, a => by simp
  | c :: rest, hsub, a => by
    have hc := hsub c (by simp)
    simp only [List.foldl_cons, gdStep2, hc, if_true]
    exact gdStep2_fold_all_present rest (fun x hx => hsub x (by simp [hx])) a

theorem gdStep1_fold_nonneg {conns : List ConnectionGene} {maxShared : Int} :
    ∀ (l : List ConnectionGene) (a : Nat × ℚ × Nat × Nat), 0 ≤ a.2.1 →
      0 ≤ (l.foldl (gdStep1 conns maxShared) a).2.1
  | [], _, ha => ha
  | c :: rest, a, ha => by
    simp only [List.foldl_cons]
    refine gdStep1_fold_nonneg rest _ ?_
    unfold gdStep1
    cases jsMapGet conns (fun x => x.innovationNumber) c.innovationNumber with
    | some m => exact add_nonneg ha (abs_nonneg _)
    | none =>
      by_cases hle : c.innovationNumber ≤ maxShared <;> simp [hle, ha]

theorem geneticDistance_self (g : NEATGenome) (c1 c2 c3 : ℚ)
    (hnd : (g.connectionGenes.map (fun c => c.innovationNumber)).Nodup) :
    geneticDistance g g c1 c2 c3 = 0 := by
  unfold geneticDistance
  dsimp only
  rw [gdStep1_fold_self hnd g.connectionGenes (fun _ h => h) (0, 0, 0, 0)]
  rw [gdStep2_fold_all_present g.connectionGenes
    (fun c hc => by
      simp only [List.contains_eq_any_beq, List.any_eq_true]
      exact ⟨c.innovationNumber, List.mem_map.mpr ⟨c, hc, rfl⟩, by simp⟩) (0, 0)]
  simp

theorem geneticDistance_nonneg (g1 g2 : NEATGenome) (c1 c2 c3 : ℚ)
    (hc1 : 0 ≤ c1) (hc2 : 0 ≤ c2) (hc3 : 0 ≤ c3) :
    0 ≤ geneticDistance g1 g2 c1 c2 c3 := by
  unfold geneticDistance
  dsimp only
  have hN : (0 : ℚ) ≤ max (max (g1.connectionGenes.length : ℚ)
      (g2.connectionGenes.length : ℚ)) 1 :=
    le_trans zero_le_one (le_max_right _ _)
  have hw : 0 ≤ (g1.connectionGenes.foldl
      (gdStep1 g2.connectionGenes
        (min (maxInnovation g1.connectionGenes) (maxInnovation g2.connectionGenes)))
      (0, 0, 0, 0)).2.1 :=
    gdStep1_fold_nonneg g1.connectionGenes (0, 0, 0, 0) le_rfl
  refine add_nonneg (add_nonneg ?_ ?_) ?_
  · exact div_nonneg (mul_nonneg hc1 (by positivity)) hN
  · exact div_nonneg (mul_nonneg hc2 (by positivity)) hN
  · refine mul_nonneg hc3 ?_
    split_ifs with hm
    · exact div_nonneg hw (by positivity)
    · exact le_rfl

theorem zip_self_type_mismatch_count (l : List Gene) :
    ((l.zip l).filter (fun p => decide (p.1.type ≠ p.2.type))).length = 0 := by
  induction l with
  | nil => rfl
  | cons a rest ih => simpa using ih

/-- C8: genetic distance is zero for a genome compared to itself and
non-negative for every pair — for the NEAT `geneticDistance` (any
coefficients for the self case, non-negative `c1, c2, c3` for non-negativity)
and for the outer `Genome.distanceTo` (self-distance needs the NEAT invariant
that innovation numbers within one genome are distinct, which the global
innovation counter guarantees). -/
theorem geneticDistance_zero_self_nonneg :
    (∀ (g : NEATGenome) (c1 c2 c3 : ℚ),
        (g.connectionGenes.map (fun c => c.innovationNumber)).Nodup →
        geneticDistance g g c1 c2 c3 = 0) ∧
    (∀ (g1 g2 : NEATGenome) (c1 c2 c3 : ℚ), 0 ≤ c1 → 0 ≤ c2 → 0 ≤ c3 →
        0 ≤ geneticDistance g1 g2 c1 c2 c3) ∧
    (∀ (G : Genome),
        (G.neuralGenome.connectionGenes.map (fun c => c.innovationNumber)).Nodup →
        G.distanceTo G = 0) ∧
    (∀ (G1 G2 : Genome), 0 ≤ G1.distanceTo G2) := by
  refine ⟨fun g c1 c2 c3 hnd => geneticDistance_self g c1 c2 c3 hnd,
    fun g1 g2 c1 c2 c3 h1 h2 h3 => geneticDistance_nonneg g1 g2 c1 c2 c3 h1 h2 h3,
    fun G hnd => ?_, fun G1 G2 => ?_⟩
  · unfold Genome.distanceTo
    dsimp only
    rw [geneticDistance_self _ _ _ _ hnd, zip_self_type_mismatch_count]
    simp
  · unfold Genome.distanceTo
    dsimp only
    have hgd := geneticDistance_nonneg G1.neuralGenome G2.neuralGenome 1 1 0.4
      zero_le_one zero_le_one (by norm_num)
    refine add_nonneg (add_nonneg ?_ ?_) hgd
    · exact mul_nonneg (abs_nonneg _) (by norm_num)
    · positivity

/-- A tiny concrete NEAT genome: one input node, one output node, one
enabled connection. -/
def neatW : NEATGenome :=
  { nodeGenes := [⟨0, NodeType.input, "sigmoid", 0⟩, ⟨1, NodeType.output, "tanh", 0⟩],
    connectionGenes := [⟨1, 0, 1, 1, true⟩],
    fitness := 1, species := 0 }

/-- A second concrete NEAT genome over the same input/output node ids. -/
def neatW2 : NEATGenome :=
  { nodeGenes := [⟨0, NodeType.input, "sigmoid", 0⟩, ⟨1, NodeType.output, "tanh", 1⟩],
    connectionGenes := [⟨2, 0, 1, -1, true⟩],
    fitness := 0, species := 0 }

def genomeW : Genome :=
  { genes := [⟨0, [1], 1, true⟩], neuralGenome := neatW, mutationRate := 0.01 }

theorem geneticDistance_zero_self_nonneg_witness :
    geneticDistance neatW neatW 1 1 (2 / 5) = 0 ∧
    0 ≤ geneticDistance neatW neatW2 1 1 (2 / 5) ∧
    genomeW.distanceTo genomeW = 0 ∧
    0 ≤ genomeW.distanceTo genomeW :=
  ⟨geneticDistance_zero_self_nonneg.1 neatW 1 1 (2 / 5) (by decide),
   geneticDistance_zero_self_nonneg.2.1 neatW neatW2 1 1 (2 / 5)
     zero_le_one zero_le_one (by norm_num),
   geneticDistance_zero_self_nonneg.2.2.1 genomeW (by decide),
   geneticDistance_zero_self_nonneg.2.2.2 genomeW genomeW⟩

theorem crossover_preserves_io_witness :
    ((1 : Int) ∈ ioIds (crossoverGenomes neatW neatW2 ⟨0⟩).1 NodeType.output ↔
      (1 : Int) ∈ ioIds
        (if neatW2.fitness ≤ neatW.fitness then neatW else neatW2) NodeType.output) :=
  crossover_preserves_io neatW neatW2 ⟨0⟩ (by decide) (by decide)
    (fun i => by simp [ioIds, neatW, neatW2])
    (fun i => by simp [ioIds, neatW, neatW2])
    NodeType.output (by decide) 1

/-!  The milestone feed (Simulation.addMilestone).  -/

/-- `MilestoneEvent`: `{type, tick, description}`. -/
structure MilestoneEvent where
  type : String
  tick : Int
  description : String
deriving DecidableEq

/-- The milestone state a `Simulation` owns: the public `milestones` list and
the private `milestoneSet` of already-fired types. -/
structure MilestoneLog where
  milestones : List MilestoneEvent
  milestoneSet : List String
deriving DecidableEq

/-- The empty state both fields start from. -/
def MilestoneLog.empty : MilestoneLog := ⟨[], []⟩

/-- `addMilestone(type, description)`: return unchanged when the type has
fired already, else record the type and append the event.  (`this.tick` is
the tick argument; the data-logger call writes outside the engine state.) -/
def addMilestone (s : MilestoneLog) (tick : Int) (type description : String) :
    MilestoneLog :=
  if type ∈ s.milestoneSet then s
  else { milestones := s.milestones ++ [⟨type, tick, description⟩],
         milestoneSet := s.milestoneSet ++ [type] }

/-- A run of `addMilestone` calls: each request is `(tick, type,
description)` in program order; nothing else in the source ever writes
`milestones`. -/
def runMilestones (reqs : List (Int × String × String)) : MilestoneLog :=
  reqs.foldl (fun s r => addMilestone s r.1 r.2.1 r.2.2) MilestoneLog.empty

theorem addMilestone_invariant (s : MilestoneLog) (tick : Int)
    (type description : String)
    (h : s.milestoneSet = s.milestones.map (fun e => e.type)) :
    (addMilestone s tick type description).milestoneSet =
      (addMilestone s tick type description).milestones.map (fun e => e.type) := by
  unfold addMilestone
  split_ifs
  · exact h
  · simp [h]

theorem addMilestone_nodup (s : MilestoneLog) (tick : Int)
    (type description : String) (hd : s.milestoneSet.Nodup) :
    (addMilestone s tick type description).milestoneSet.Nodup := by
  unfold addMilestone
  split_ifs with hmem
  · exact hd
  · simp only [List.nodup_append]
    exact ⟨hd, List.nodup_singleton type, by simpa using fun hx => hmem hx⟩

theorem runMilestones_fold_invariant :
    ∀ (reqs : List (Int × String × String)) (s : MilestoneLog),
      s.milestoneSet = s.milestones.map (fun e => e.type) → s.milestoneSet.Nodup →
      ((reqs.foldl (fun s r => addMilestone s r.1 r.2.1 r.2.2) s).milestoneSet =
        (reqs.foldl (fun s r => addMilestone s r.1 r.2.1 r.2.2) s).milestones.map
          (fun e => e.type)) ∧
      (reqs.foldl (fun s r => addMilestone s r.1 r.2.1 r.2.2) s).milestoneSet.Nodup
  | [], s, h, hd => ⟨h, hd⟩
  | r :: rest, s, h, hd => by
    simp only [List.foldl_cons]
    exact runMilestones_fold_invariant rest _
      (addMilestone_invariant s r.1 r.2.1 r.2.2 h)
      (addMilestone_nodup s r.1 r.2.1 r.2.2 hd)

theorem addMilestone_append_only (s : MilestoneLog) (tick : Int)
    (type description : String) :
    ∃ t, (addMilestone s tick type description).milestones = s.milestones ++ t := by
  unfold addMilestone
  split_ifs
  · exact ⟨[], by simp⟩
  · exact ⟨[⟨type, tick, description⟩], rfl⟩

theorem milestones_fold_prefix :
    ∀ (reqs : List (Int × String × String)) (s : MilestoneLog),
      ∃ t, (reqs.foldl (fun s r => addMilestone s r.1 r.2.1 r.2.2) s).milestones =
        s.milestones ++ t
  | [], s => ⟨[], by simp⟩
  | r :: rest, s => by
    simp only [List.foldl_cons]
    obtain ⟨t1, ht1⟩ := addMilestone_append_only s r.1 r.2.1 r.2.2
    obtain ⟨t2, ht2⟩ := milestones_fold_prefix rest (addMilestone s r.1 r.2.1 r.2.2)
    exact ⟨t1 ++ t2, by rw [ht2, ht1, List.append_assoc]⟩

/-- C9: the milestone feed is append-only and fires each type at most once —
after any run of `addMilestone` calls the recorded milestone types are
pairwise distinct (a type already in the set is never appended again), and
extending a run only appends: the previously recorded list survives
unchanged, in order, as a prefix. -/
theorem milestones_once_and_append_only (reqs extra : List (Int × String × String)) :
    ((runMilestones reqs).milestones.map (fun e => e.type)).Nodup ∧
    ∃ t, (runMilestones (reqs ++ extra)).milestones = (runMilestones reqs).milestones ++ t := by
  constructor
  · have h := runMilestones_fold_invariant reqs MilestoneLog.empty rfl List.nodup_nil
    exact h.1 ▸ h.2
  · unfold runMilestones
    rw [List.foldl_append]
    exact milestones_fold_prefix extra _

end Genesis
